import Mathlib

/-!
Formal model of the album-cover mosaic pipeline in `main.py`.

The Python program is shallowly embedded: pure string manipulation becomes
Lean functions on `String`/`List Char`; the filesystem cache is a
`Finset String` of existing paths; network and decoder behaviour is an
explicit oracle (`AlbumEnv`); observable effects (HTTP requests, sleeps)
are collected in an event trace.  All delay values reachable by the code
(1.0, 2.0, 4.0, 8.0, 16.0 seconds) are small integers that IEEE doubles
represent exactly, so delays are modelled as natural numbers of seconds.
-/

namespace AlbumMosaic

/-! ## Configuration constants (the CONFIG block of main.py) -/

def TEMP_DIR : String := "album_covers"

def OUTPUT_IMAGE : String := "bandcamp_jazz_mosaic_2000.png"

def FINAL_SIZE : Nat := 2000

/-- `BASE_DELAY = 2.0` seconds between albums (exact as an integer). -/
def BASE_DELAY : Nat := 2

def MAX_RETRIES : Nat := 5

/-! ## String helpers: Python `str.strip`, `str.lower`, `re.sub` -/

/-- The whitespace characters recognised by Python `str.strip()` and by
the regex class `\s` on ASCII text. -/
def isPySpace (c : Char) : Bool :=
  c = ' ' || c = '\t' || c = '\n' || c = '\r' || c = '\x0b' || c = '\x0c'

/-- Remove leading and trailing whitespace from a character list. -/
def stripChars (l : List Char) : List Char :=
  ((l.dropWhile isPySpace).reverse.dropWhile isPySpace).reverse

/-- Python `str.strip()`. -/
def pyStrip (s : String) : String := ⟨stripChars s.data⟩

/-- Python `str.lower()` (ASCII case mapping). -/
def pyLower (s : String) : String := ⟨s.data.map Char.toLower⟩

/-- Helper for `re.sub(r"\s+", " ", s)`: collapse every maximal whitespace
run to a single space.  The flag records whether the previous character
was part of a whitespace run. -/
def collapseWsAux : List Char → Bool → List Char
  | [], _ => []
  | c :: rest, prevSpace =>
    if isPySpace c then
      if prevSpace then collapseWsAux rest true
      else ' ' :: collapseWsAux rest true
    else c :: collapseWsAux rest false

/-- `normalize` from main.py:
`re.sub(r"\s+", " ", text.strip().lower())`.
Note that main.py defines this function but never calls it. -/
def normalize (text : String) : String :=
  ⟨collapseWsAux (pyLower (pyStrip text)).data false⟩

/-- Characters kept verbatim by `slugify` (the class `[a-z0-9]`). -/
def isSlugChar (c : Char) : Bool :=
  ('a' ≤ c && c ≤ 'z') || ('0' ≤ c && c ≤ '9')

/-- Helper for `re.sub(r"[^a-z0-9]+", "_", s)`: replace every maximal run
of characters outside `[a-z0-9]` by one underscore. -/
def slugAux : List Char → Bool → List Char
  | [], _ => []
  | c :: rest, prevSep =>
    if isSlugChar c then c :: slugAux rest false
    else if prevSep then slugAux rest true
    else '_' :: slugAux rest true

/-- Python `.strip("_")`: remove leading and trailing underscores. -/
def stripUnderscores (l : List Char) : List Char :=
  ((l.dropWhile (fun c => c == '_')).reverse.dropWhile (fun c => c == '_')).reverse

/-- `slugify` from main.py:
`re.sub(r"[^a-z0-9]+", "_", text.lower()).strip("_")`. -/
def slugify (text : String) : String :=
  ⟨stripUnderscores (slugAux (pyLower text).data false)⟩

/-- `cover_path` from main.py:
`os.path.join(TEMP_DIR, slugify(f"{artist}_{album}") + ".jpg")`. -/
def cover_path (artist album : String) : String :=
  TEMP_DIR ++ "/" ++ slugify (artist ++ "_" ++ album) ++ ".jpg"

/-- `miss_path` from main.py: `cover_path(artist, album) + ".miss"`. -/
def miss_path (artist album : String) : String :=
  cover_path artist album ++ ".miss"

/-! ## Album source reader -/

/-- One data row of the tab-separated input after `csv.DictReader` field
lookup: the values of `row.get("Artist", "")` and `row.get("Album", "")`.
Rows missing a column carry the empty string, exactly as in the code. -/
structure Row where
  artist : String
  album : String
deriving DecidableEq

/-- Add an element to a duplicate-free list, keeping it duplicate-free.
Models `set.add` (set iteration order is arbitrary in Python; the claims
below depend only on membership and cardinality, which are order
independent, so insertion order is as good a choice as any). -/
def insertNew (l : List (String × String)) (p : String × String) :
    List (String × String) :=
  if p ∈ l then l else l ++ [p]

/-- `extract_unique_albums` from main.py, with the file already parsed
into rows: strip both fields, keep the row when both are non-empty, and
collect the resulting pairs into a set. -/
def extract_unique_albums (rows : List Row) : List (String × String) :=
  rows.foldl (fun albums row =>
    let artist := pyStrip row.artist
    let album := pyStrip row.album
    if artist ≠ "" ∧ album ≠ "" then insertNew albums (artist, album)
    else albums) []

/-- Two rows that differ only in letter case and interior whitespace:
their trimmed fields are distinct strings but their normalized forms
coincide. -/
def c1Rows : List Row :=
  [⟨"Miles Davis", "Kind of Blue"⟩, ⟨"miles  davis", "kind of blue"⟩]

/-! ## Cover acquirer: HTTP retry loop and the download driver -/

/-- Observable effects of the acquisition phase.
`req` is one `SESSION.get` call; `retrySleep d` is the
`time.sleep(delay)` inside `get_with_backoff`; `albumSleep d` is the
`time.sleep(BASE_DELAY)` at the bottom of the `download_covers` loop. -/
inductive Ev where
  | req : Ev
  | retrySleep : Nat → Ev
  | albumSleep : Nat → Ev
deriving DecidableEq

/-- Number of HTTP requests recorded in a trace. -/
def reqCount (evs : List Ev) : Nat :=
  evs.countP (fun e => match e with | Ev.req => true | _ => false)

/-- The sleep durations of the retry loop, in order. -/
def retrySleeps (evs : List Ev) : List Nat :=
  evs.filterMap (fun e => match e with | Ev.retrySleep d => some d | _ => none)

/-- The body of `get_with_backoff`:
`for attempt in range(MAX_RETRIES)` becomes recursion on the remaining
attempts (`fuel`).  `status k` is the HTTP status code of the k-th
request issued by this call; `made` counts requests already issued and
`delay` is the current backoff delay.  The result is the index of the
successful request, if any, together with the trace of requests and
sleeps in program order. -/
def backoffLoop (status : Nat → Nat) : Nat → Nat → Nat → Option Nat × List Ev
  | 0, _, _ => (none, [])
  | fuel + 1, made, delay =>
    let st := status made
    if st = 200 then (some made, [Ev.req])
    else if st = 429 then
      let rest := backoffLoop status fuel (made + 1) (delay * 2)
      (rest.1, Ev.req :: Ev.retrySleep delay :: rest.2)
    else (none, [Ev.req])

/-- `get_with_backoff` from main.py: up to `MAX_RETRIES` attempts,
starting with a delay of 1.0 second, doubling after each rate-limited
attempt. -/
def get_with_backoff (status : Nat → Nat) : Option Nat × List Ev :=
  backoffLoop status MAX_RETRIES 0 1

/-- The trace produced when every response is a 429: one request and one
doubling sleep per remaining attempt. -/
def all429Trace : Nat → Nat → List Ev
  | 0, _ => []
  | fuel + 1, delay => Ev.req :: Ev.retrySleep delay :: all429Trace fuel (delay * 2)

/-- The per-identity oracle: what the network and the decoders would do
for one album.  `searchStatus` and `fetchStatus` give the HTTP statuses
seen by the two `get_with_backoff` calls; `imgSrc` is the `src` of
`soup.select_one("li.searchresult img")` (none when the element or the
attribute is absent); `decodeOk` tells whether `Image.open(...).convert`
succeeds (it raises an exception on corrupt bytes); `saveOk` tells
whether `img.save` succeeds (it raises on I/O errors).  File writes are
modelled as atomic. -/
structure AlbumEnv where
  searchStatus : Nat → Nat
  imgSrc : Option String
  fetchStatus : Nat → Nat
  decodeOk : Bool
  saveOk : Bool

/-- `search_bandcamp_album` from main.py: one `get_with_backoff` call;
on success, extract the first search-result image reference from the
markup (the oracle `imgSrc`).  Returns the image URL, if any, and the
network trace. -/
def search_bandcamp_album (env : AlbumEnv) : Option String × List Ev :=
  let r := get_with_backoff env.searchStatus
  match r.1 with
  | none => (none, r.2)
  | some _ => (env.imgSrc, r.2)

/-- Outcome of `fetch_album_art`: the HTTP phase can fail (the function
returns None), the decode can succeed, or the decode can raise. -/
inductive FetchResult where
  | got : FetchResult
  | failed : FetchResult
  | raised : FetchResult
deriving DecidableEq

/-- `fetch_album_art` from main.py: one `get_with_backoff` call for the
image bytes; on HTTP success the bytes are decoded, which either yields
an image or raises. -/
def fetch_album_art (env : AlbumEnv) : FetchResult × List Ev :=
  let r := get_with_backoff env.fetchStatus
  match r.1 with
  | none => (FetchResult.failed, r.2)
  | some _ => (if env.decodeOk then FetchResult.got else FetchResult.raised, r.2)

/-- One iteration of the `download_covers` loop for the identity
(artist, album).  The filesystem is the set of existing cache file
paths.  The two `continue` statements on the miss paths skip the
`time.sleep(BASE_DELAY)` at the bottom of the loop; exceptions raised by
decode or save are caught by the per-album handler, which writes the
miss marker and then falls through to the sleep. -/
def processAlbum (env : AlbumEnv) (fs : Finset String) (artist album : String) :
    Finset String × List Ev :=
  let img_path := cover_path artist album
  let missp := miss_path artist album
  if img_path ∈ fs ∨ missp ∈ fs then (fs, [])
  else
    let s := search_bandcamp_album env
    match s.1 with
    | none => (insert missp fs, s.2)
    | some _ =>
      let f := fetch_album_art env
      match f.1 with
      | FetchResult.failed => (insert missp fs, s.2 ++ f.2)
      | FetchResult.got =>
        if env.saveOk then
          (insert (cover_path artist album) fs,
            s.2 ++ f.2 ++ [Ev.albumSleep BASE_DELAY])
        else
          (insert missp fs, s.2 ++ f.2 ++ [Ev.albumSleep BASE_DELAY])
      | FetchResult.raised =>
        (insert missp fs, s.2 ++ f.2 ++ [Ev.albumSleep BASE_DELAY])

/-- `download_covers` from main.py: iterate the identities in order,
threading the cache filesystem and concatenating the event traces.
(`os.makedirs` only ensures the directory exists and is not modelled.) -/
def download_covers (albums : List ((String × String) × AlbumEnv))
    (fs : Finset String) : Finset String × List Ev :=
  match albums with
  | [] => (fs, [])
  | (p, env) :: rest =>
    let st := processAlbum env fs p.1 p.2
    let r := download_covers rest st.1
    (r.1, st.2 ++ r.2)

/-- The cache invariant of the spec: for every key, the cover artifact
and the miss marker are never simultaneously present. -/
def atMostOne (fs : Finset String) : Prop :=
  ∀ a b : String, ¬ (cover_path a b ∈ fs ∧ miss_path a b ∈ fs)

/-- Exactly one of the two cache files for the key of (a, b) exists. -/
def exactlyOne (fs : Finset String) (a b : String) : Prop :=
  (cover_path a b ∈ fs ∨ miss_path a b ∈ fs) ∧
  ¬ (cover_path a b ∈ fs ∧ miss_path a b ∈ fs)

/-- An oracle whose every HTTP response is a 404: the search aborts at
once and the album becomes a miss through the `continue` path. -/
def env404 : AlbumEnv :=
  { searchStatus := fun _ => 404, imgSrc := none,
    fetchStatus := fun _ => 404, decodeOk := true, saveOk := true }

/-- An oracle for which everything succeeds. -/
def envOK : AlbumEnv :=
  { searchStatus := fun _ => 200, imgSrc := some "https://img",
    fetchStatus := fun _ => 200, decodeOk := true, saveOk := true }

/-! ## Mosaic compositor -/

/-- Linear search for the least value g at or above the current one with
n ≤ g * g, with explicit fuel for structural recursion. -/
def ceilSqrtFrom (n : Nat) : Nat → Nat → Nat
  | g, 0 => g
  | g, fuel + 1 => if n ≤ g * g then g else ceilSqrtFrom n (g + 1) fuel

/-- `math.ceil(math.sqrt(n))` on naturals: the least g with n ≤ g * g
(fuel n suffices because n ≤ n * n).  The float computation in main.py
is exact for every realistic tile count. -/
def ceilSqrt (n : Nat) : Nat := ceilSqrtFrom n 0 n

/-- Console output of the mosaic compositor. -/
inductive Msg where
  | noImages : Msg
  | savedMosaic : String → Msg
  | albumsUsed : Nat → Msg
deriving DecidableEq

/-- One pasted tile: the image, the exact size it was resized to, and the
pixel offset it was pasted at. -/
structure Placement (α : Type) where
  img : α
  size : Nat × Nat
  pos : Nat × Nat
deriving DecidableEq

/-- The composite image file that `mosaic.save` writes. -/
structure MosaicOut (α : Type) where
  canvas : Nat × Nat
  background : String
  placements : List (Placement α)
  path : String
  quality : Nat
deriving DecidableEq

/-- The observable result of `build_mosaic`: the output file, if one was
written, and the console messages. -/
structure BuildResult (α : Type) where
  output : Option (MosaicOut α)
  messages : List Msg
deriving DecidableEq

/-- `build_mosaic` from main.py.  With no images it only reports; with
count images it computes grid = ceil(sqrt(count)) and
tile_size = FINAL_SIZE // grid, resizes tile i to tile_size x tile_size,
and pastes it at ((i % grid) * tile_size, (i // grid) * tile_size) on a
black FINAL_SIZE x FINAL_SIZE canvas, saved at quality 95. -/
def build_mosaic {α : Type} (images : List α) : BuildResult α :=
  let count := images.length
  if count = 0 then
    { output := none, messages := [Msg.noImages] }
  else
    let grid := ceilSqrt count
    let tile_size := FINAL_SIZE / grid
    let placements := images.enum.map (fun p =>
      { img := p.2, size := (tile_size, tile_size),
        pos := ((p.1 % grid) * tile_size, (p.1 / grid) * tile_size) })
    { output := some
        { canvas := (FINAL_SIZE, FINAL_SIZE), background := "black",
          placements := placements, path := OUTPUT_IMAGE, quality := 95 },
      messages := [Msg.savedMosaic OUTPUT_IMAGE, Msg.albumsUsed count] }

/-! ## Loading cached covers from disk -/

/-- A directory entry of the cache: the file name and what
`Image.open(path).convert("RGB")` would produce for it (`none` means the
open or the decode raises, i.e. the bytes are not a valid image). -/
structure DirFile (α : Type) where
  name : String
  decode : Option α
deriving DecidableEq

/-- Python `str.endswith`. -/
def endswith (s suffix : String) : Bool :=
  suffix.data.isSuffixOf s.data

/-- The order `sorted(os.listdir(...))` sorts by: ascending lexicographic
comparison of the whole file name, character code by character code. -/
def nameLe {α : Type} (f g : DirFile α) : Prop :=
  f.name.data ≤ g.name.data

instance nameLeDecidable {α : Type} : DecidableRel (@nameLe α) :=
  fun f g => inferInstanceAs (Decidable (f.name.data ≤ g.name.data))

instance nameLeTotal {α : Type} : IsTotal (DirFile α) nameLe :=
  ⟨fun f g => le_total f.name.data g.name.data⟩

instance nameLeTrans {α : Type} : IsTrans (DirFile α) nameLe :=
  ⟨fun _ _ _ h1 h2 => le_trans h1 h2⟩

/-- `sorted(os.listdir(TEMP_DIR))`: Python `sorted` is a stable ascending
sort, and every stable sort computes the same list, modelled here by
insertion sort. -/
def sortByName {α : Type} (dir : List (DirFile α)) : List (DirFile α) :=
  dir.insertionSort nameLe

/-- `load_images_from_disk` from main.py: iterate the sorted directory
listing, skip names not ending in ".jpg", try to open and decode each
remaining file, silently skipping the ones that raise. -/
def load_images_from_disk {α : Type} (dir : List (DirFile α)) : List α :=
  (sortByName dir).foldl (fun images f =>
    if endswith f.name ".jpg" then
      match f.decode with
      | some img => images ++ [img]
      | none => images
    else images) []

/-- A two-file cache directory listed in reverse lexicographic order. -/
def c9Dir : List (DirFile Nat) := [⟨"b.jpg", some 1⟩, ⟨"a.jpg", some 0⟩]

/-- The mosaic that main.py builds from `c9Dir`: two 1000-pixel tiles in
the first row of a 2x2 grid, in lexicographic file-name order. -/
def c9Out : MosaicOut Nat :=
  { canvas := (FINAL_SIZE, FINAL_SIZE), background := "black",
    placements := [⟨0, (1000, 1000), (0, 0)⟩, ⟨1, (1000, 1000), (1000, 0)⟩],
    path := OUTPUT_IMAGE, quality := 95 }

/-- A cache directory with one good cover and one miss marker. -/
def c10Dir : List (DirFile Nat) := [⟨"a.jpg", some 0⟩, ⟨"x.jpg.miss", none⟩]

end AlbumMosaic

namespace AlbumMosaic

/-! ## Lemmas about `insertNew` and `extract_unique_albums` -/

theorem mem_insertNew {l : List (String × String)} {p q : String × String} :
    q ∈ insertNew l p ↔ q ∈ l ∨ q = p := by
  unfold insertNew
  split
  · constructor
    · exact Or.inl
    · rintro (h | rfl) <;> [exact h; assumption]
  · simp [List.mem_append]

theorem insertNew_nodup {l : List (String × String)} (h : l.Nodup)
    (p : String × String) : (insertNew l p).Nodup := by
  unfold insertNew
  split
  · exact h
  · simpa [List.nodup_append] using ⟨h, by assumption⟩

theorem extract_foldl_spec (rows : List Row) (acc : List (String × String))
    (hacc : acc.Nodup) :
    (rows.foldl (fun albums row =>
      let artist := pyStrip row.artist
      let album := pyStrip row.album
      if artist ≠ "" ∧ album ≠ "" then insertNew albums (artist, album)
      else albums) acc).Nodup ∧
    ∀ p : String × String,
      p ∈ rows.foldl (fun albums row =>
        let artist := pyStrip row.artist
        let album := pyStrip row.album
        if artist ≠ "" ∧ album ≠ "" then insertNew albums (artist, album)
        else albums) acc ↔
      p ∈ acc ∨ (p.1 ≠ "" ∧ p.2 ≠ "" ∧
        ∃ r ∈ rows, pyStrip r.artist = p.1 ∧ pyStrip r.album = p.2) := by
  induction rows generalizing acc with
  | nil => simp [hacc]
  | cons r rows ih =>
    simp only [List.foldl_cons]
    by_cases hc : pyStrip r.artist ≠ "" ∧ pyStrip r.album ≠ ""
    · rw [if_pos hc]
      obtain ⟨h1, h2⟩ := ih (insertNew acc (pyStrip r.artist, pyStrip r.album))
        (insertNew_nodup hacc _)
      refine ⟨h1, fun p => ?_⟩
      rw [h2 p, mem_insertNew]
      constructor
      · rintro ((hp | rfl) | ⟨ha, hb, rr, hrr, h3, h4⟩)
        · exact Or.inl hp
        · exact Or.inr ⟨hc.1, hc.2, r, List.mem_cons_self r rows, rfl, rfl⟩
        · exact Or.inr ⟨ha, hb, rr, List.mem_cons_of_mem r hrr, h3, h4⟩
      · rintro (hp | ⟨ha, hb, rr, hrr, h3, h4⟩)
        · exact Or.inl (Or.inl hp)
        · rcases List.mem_cons.mp hrr with rfl | hrr
          · exact Or.inl (Or.inr (by cases p; simp_all))
          · exact Or.inr ⟨ha, hb, rr, hrr, h3, h4⟩
    · rw [if_neg hc]
      obtain ⟨h1, h2⟩ := ih acc hacc
      refine ⟨h1, fun p => ?_⟩
      rw [h2 p]
      constructor
      · rintro (hp | ⟨ha, hb, rr, hrr, h3, h4⟩)
        · exact Or.inl hp
        · exact Or.inr ⟨ha, hb, rr, List.mem_cons_of_mem r hrr, h3, h4⟩
      · rintro (hp | ⟨ha, hb, rr, hrr, h3, h4⟩)
        · exact Or.inl hp
        · rcases List.mem_cons.mp hrr with rfl | hrr
          · exact absurd ⟨h3 ▸ ha, h4 ▸ hb⟩ hc
          · exact Or.inr ⟨ha, hb, rr, hrr, h3, h4⟩

/-- C1 counterexample: two rows whose artist and album differ only in
letter case and interior whitespace (their normalized forms coincide)
produce TWO identities, not one: `extract_unique_albums` deduplicates by
the exact trimmed pair and never applies `normalize`. -/
theorem c1_counterexample :
    (normalize "Miles Davis" = normalize "miles  davis" ∧
      normalize "Kind of Blue" = normalize "kind of blue") ∧
    (extract_unique_albums c1Rows).length = 2 ∧
    (extract_unique_albums c1Rows).length ≠ 1 := by decide

/-- C1 (amended): `extract_unique_albums` deduplicates by the exact
trimmed (artist, album) pair.  The result never contains two equal pairs,
and a pair is present exactly when both components are non-empty after
trimming and some input row has exactly those trimmed fields.  Rows whose
trimmed fields differ in letter case or interior whitespace therefore
yield distinct identities. -/
theorem c1_extract_unique_albums_dedup (rows : List Row) :
    (extract_unique_albums rows).Nodup ∧
    ∀ p : String × String,
      p ∈ extract_unique_albums rows ↔
        (p.1 ≠ "" ∧ p.2 ≠ "" ∧
          ∃ r ∈ rows, pyStrip r.artist = p.1 ∧ pyStrip r.album = p.2) := by
  obtain ⟨h1, h2⟩ := extract_foldl_spec rows [] List.nodup_nil
  exact ⟨h1, fun p => by rw [extract_unique_albums, h2 p]; simp⟩

/-! ## The backoff policy (claims C3 and C7) -/

theorem backoffLoop_all429 (status : Nat → Nat) (h : ∀ k, status k = 429) :
    ∀ fuel made delay,
      backoffLoop status fuel made delay = (none, all429Trace fuel delay) := by
  intro fuel
  induction fuel with
  | zero => intro made delay; simp [backoffLoop, all429Trace]
  | succ fuel ih =>
    intro made delay
    simp [backoffLoop, all429Trace, h, ih]

/-- C3: when every HTTP response has status 429, `get_with_backoff`
terminates (it is a total function) after exactly `MAX_RETRIES = 5`
requests, returns no response (a miss), and its retry waits start at
1 second and double after each attempt. -/
theorem c3_backoff_terminates_on_429 (status : Nat → Nat)
    (h : ∀ k, status k = 429) :
    (get_with_backoff status).1 = none ∧
    reqCount (get_with_backoff status).2 = MAX_RETRIES ∧
    retrySleeps (get_with_backoff status).2 = [1, 2, 4, 8, 16] := by
  have e := backoffLoop_all429 status h MAX_RETRIES 0 1
  rw [get_with_backoff, e]
  decide

/-- Witness for C3 at the constant-429 oracle. -/
theorem c3_witness :
    (get_with_backoff (fun _ => 429)).1 = none ∧
    reqCount (get_with_backoff (fun _ => 429)).2 = MAX_RETRIES ∧
    retrySleeps (get_with_backoff (fun _ => 429)).2 = [1, 2, 4, 8, 16] :=
  c3_backoff_terminates_on_429 (fun _ => 429) (fun _ => rfl)

theorem backoffLoop_other_status (status : Nat → Nat) (fuel made delay : Nat)
    (h200 : status made ≠ 200) (h429 : status made ≠ 429) :
    backoffLoop status (fuel + 1) made delay = (none, [Ev.req]) := by
  simp [backoffLoop, h200, h429]

/-- C7: when the first response has a status other than 200 and 429, the
call returns None immediately: exactly one request is made, no retry
happens, and no time is slept. -/
theorem c7_other_status_immediate_miss (status : Nat → Nat)
    (h200 : status 0 ≠ 200) (h429 : status 0 ≠ 429) :
    get_with_backoff status = (none, [Ev.req]) ∧
    reqCount (get_with_backoff status).2 = 1 ∧
    retrySleeps (get_with_backoff status).2 = [] := by
  have e : get_with_backoff status = (none, [Ev.req]) := by
    show backoffLoop status (4 + 1) 0 1 = (none, [Ev.req])
    exact backoffLoop_other_status status 4 0 1 h200 h429
  rw [e]
  exact ⟨rfl, rfl, rfl⟩

/-- Witness for C7 at the constant-404 oracle. -/
theorem c7_witness :
    get_with_backoff (fun _ => 404) = (none, [Ev.req]) ∧
    reqCount (get_with_backoff (fun _ => 404)).2 = 1 ∧
    retrySleeps (get_with_backoff (fun _ => 404)).2 = [] :=
  c7_other_status_immediate_miss (fun _ => 404) (by decide) (by decide)

/-! ## Cache-path disjointness -/

theorem cover_path_getLast (a b : String) :
    (cover_path a b).data.getLast? = some 'g' := by
  rw [cover_path, String.data_append, List.getLast?_append]
  rfl

theorem miss_path_getLast (a b : String) :
    (miss_path a b).data.getLast? = some 's' := by
  rw [miss_path, String.data_append, List.getLast?_append]
  rfl

/-- A cover artifact path (ending in ".jpg") is never equal to a miss
marker path (ending in ".miss"), for any two identities. -/
theorem cover_path_ne_miss_path (a b c d : String) :
    cover_path a b ≠ miss_path c d := by
  intro h
  have hg := cover_path_getLast a b
  rw [h, miss_path_getLast] at hg
  simp at hg

theorem miss_path_congr {a b c d : String}
    (h : cover_path a b = cover_path c d) : miss_path a b = miss_path c d := by
  rw [miss_path, miss_path, h]

theorem cover_path_congr {a b c d : String}
    (h : miss_path a b = miss_path c d) : cover_path a b = cover_path c d := by
  have := congrArg String.data h
  rw [miss_path, miss_path, String.data_append, String.data_append] at this
  exact congrArg String.mk (List.append_cancel_right this)

/-! ## Behaviour of one `download_covers` iteration -/

theorem processAlbum_skip (env : AlbumEnv) (fs : Finset String) (a b : String)
    (h : cover_path a b ∈ fs ∨ miss_path a b ∈ fs) :
    processAlbum env fs a b = (fs, []) := by
  show (if cover_path a b ∈ fs ∨ miss_path a b ∈ fs then (fs, ([] : List Ev))
    else _) = (fs, [])
  rw [if_pos h]

theorem processAlbum_cases (env : AlbumEnv) (fs : Finset String) (a b : String) :
    ((cover_path a b ∈ fs ∨ miss_path a b ∈ fs) ∧
      processAlbum env fs a b = (fs, [])) ∨
    (cover_path a b ∉ fs ∧ miss_path a b ∉ fs ∧
      ((processAlbum env fs a b).1 = insert (cover_path a b) fs ∨
       (processAlbum env fs a b).1 = insert (miss_path a b) fs)) := by
  by_cases hres : cover_path a b ∈ fs ∨ miss_path a b ∈ fs
  · exact Or.inl ⟨hres, processAlbum_skip env fs a b hres⟩
  · push_neg at hres
    refine Or.inr ⟨hres.1, hres.2, ?_⟩
    simp only [processAlbum, if_neg (not_or.mpr ⟨hres.1, hres.2⟩)]
    rcases hs : (search_bandcamp_album env).1 with _ | u
    · simp [hs]
    · simp only [hs]
      rcases hf : (fetch_album_art env).1 with _ | _ | _
      · by_cases hsv : env.saveOk <;> simp [hf, hsv]
      · simp [hf]
      · simp [hf]

theorem processAlbum_subset (env : AlbumEnv) (fs : Finset String)
    (a b : String) : fs ⊆ (processAlbum env fs a b).1 := by
  rcases processAlbum_cases env fs a b with ⟨_, he⟩ | ⟨_, _, he | he⟩ <;>
    rw [he] <;> first
    | exact Finset.Subset.refl fs
    | exact Finset.subset_insert _ fs

theorem processAlbum_mem_self (env : AlbumEnv) (fs : Finset String)
    (a b : String) :
    cover_path a b ∈ (processAlbum env fs a b).1 ∨
    miss_path a b ∈ (processAlbum env fs a b).1 := by
  rcases processAlbum_cases env fs a b with ⟨hres, he⟩ | ⟨_, _, he | he⟩
  · rw [he]; exact hres
  · rw [he]; exact Or.inl (Finset.mem_insert_self _ fs)
  · rw [he]; exact Or.inr (Finset.mem_insert_self _ fs)

theorem processAlbum_atMostOne (env : AlbumEnv) (fs : Finset String)
    (a b : String) (h : atMostOne fs) : atMostOne (processAlbum env fs a b).1 := by
  rcases processAlbum_cases env fs a b with ⟨_, he⟩ | ⟨hc, hm, he | he⟩
  · rw [he]; exact h
  · rw [he]
    intro a2 b2 ⟨h1, h2⟩
    rcases Finset.mem_insert.mp h2 with h2 | h2
    · exact cover_path_ne_miss_path a b a2 b2 h2.symm
    rcases Finset.mem_insert.mp h1 with h1 | h1
    · exact hm (miss_path_congr h1 ▸ h2)
    · exact h a2 b2 ⟨h1, h2⟩
  · rw [he]
    intro a2 b2 ⟨h1, h2⟩
    rcases Finset.mem_insert.mp h1 with h1 | h1
    · exact cover_path_ne_miss_path a2 b2 a b h1
    rcases Finset.mem_insert.mp h2 with h2 | h2
    · exact hc (cover_path_congr h2 ▸ h1)
    · exact h a2 b2 ⟨h1, h2⟩

/-! ## Behaviour of the whole driver loop -/

theorem download_covers_subset (albums : List ((String × String) × AlbumEnv))
    (fs : Finset String) : fs ⊆ (download_covers albums fs).1 := by
  induction albums generalizing fs with
  | nil => exact Finset.Subset.refl fs
  | cons hd rest ih =>
    obtain ⟨p, env⟩ := hd
    exact (processAlbum_subset env fs p.1 p.2).trans (ih _)

theorem download_covers_atMostOne (albums : List ((String × String) × AlbumEnv))
    (fs : Finset String) (h : atMostOne fs) :
    atMostOne (download_covers albums fs).1 := by
  induction albums generalizing fs with
  | nil => exact h
  | cons hd rest ih =>
    obtain ⟨p, env⟩ := hd
    exact ih _ (processAlbum_atMostOne env fs p.1 p.2 h)

theorem download_covers_atLeastOne (albums : List ((String × String) × AlbumEnv))
    (fs : Finset String) :
    ∀ it ∈ albums, cover_path it.1.1 it.1.2 ∈ (download_covers albums fs).1 ∨
      miss_path it.1.1 it.1.2 ∈ (download_covers albums fs).1 := by
  induction albums generalizing fs with
  | nil => intro it hit; cases hit
  | cons hd rest ih =>
    obtain ⟨p, env⟩ := hd
    intro it hit
    rcases List.mem_cons.mp hit with rfl | hit
    · rcases processAlbum_mem_self env fs p.1 p.2 with hm | hm
      · exact Or.inl (download_covers_subset rest _ hm)
      · exact Or.inr (download_covers_subset rest _ hm)
    · exact ih (processAlbum env fs p.1 p.2).1 it hit

/-- C2: if the cache starts with at most one of the two files per key,
then this invariant holds after every prefix of the run, and after the
whole run every identity in the list has exactly one of the cover
artifact and the miss marker for its key: never both, never neither. -/
theorem c2_exactly_one_outcome (albums : List ((String × String) × AlbumEnv))
    (fs : Finset String) (h : atMostOne fs) :
    (∀ pre suf, albums = pre ++ suf → atMostOne (download_covers pre fs).1) ∧
    (∀ it ∈ albums, exactlyOne (download_covers albums fs).1 it.1.1 it.1.2) := by
  refine ⟨fun pre _ _ => download_covers_atMostOne pre fs h, fun it hit => ?_⟩
  exact ⟨download_covers_atLeastOne albums fs it hit,
    download_covers_atMostOne albums fs h it.1.1 it.1.2⟩

/-- Witness for C2: one identity processed from the empty cache. -/
theorem c2_witness :
    (∀ pre suf,
      ([(("a", "b"), envOK)] : List ((String × String) × AlbumEnv)) = pre ++ suf →
        atMostOne (download_covers pre ∅).1) ∧
    (∀ it ∈ ([(("a", "b"), envOK)] : List ((String × String) × AlbumEnv)),
        exactlyOne (download_covers [(("a", "b"), envOK)] ∅).1 it.1.1 it.1.2) :=
  c2_exactly_one_outcome [(("a", "b"), envOK)] ∅ (by simp [atMostOne])

/-- C4: an identity whose key already has a cover artifact or a miss
marker is skipped with no network request, no sleep, and no cache
change; consequently a run whose every identity is already resolved
makes no request at all (empty trace) and returns the cache unchanged. -/
theorem c4_resolved_skips (albums : List ((String × String) × AlbumEnv))
    (fs : Finset String)
    (hres : ∀ it ∈ albums,
      cover_path it.1.1 it.1.2 ∈ fs ∨ miss_path it.1.1 it.1.2 ∈ fs) :
    (∀ (env : AlbumEnv) (a b : String),
      (cover_path a b ∈ fs ∨ miss_path a b ∈ fs) →
        processAlbum env fs a b = (fs, [])) ∧
    download_covers albums fs = (fs, []) := by
  refine ⟨fun env a b hab => processAlbum_skip env fs a b hab, ?_⟩
  induction albums with
  | nil => rfl
  | cons hd rest ih =>
    obtain ⟨p, env⟩ := hd
    have hm : ((p, env) : (String × String) × AlbumEnv) ∈ (p, env) :: rest :=
      List.mem_cons_self (p, env) rest
    have h1 := processAlbum_skip env fs p.1 p.2 (hres (p, env) hm)
    simp only [download_covers, h1]
    exact ih fun it hit => hres it (List.mem_cons_of_mem _ hit)

/-- Witness for C4: a second run over one identity with its cover
already cached. -/
theorem c4_witness :
    (∀ (env : AlbumEnv) (a b : String),
      (cover_path a b ∈ ({cover_path "a" "b"} : Finset String) ∨
        miss_path a b ∈ ({cover_path "a" "b"} : Finset String)) →
        processAlbum env ({cover_path "a" "b"} : Finset String) a b =
          ({cover_path "a" "b"}, [])) ∧
    download_covers [(("a", "b"), envOK)] {cover_path "a" "b"} =
      ({cover_path "a" "b"}, []) :=
  c4_resolved_skips [(("a", "b"), envOK)] {cover_path "a" "b"} (by
    intro it hit
    rcases List.mem_singleton.mp hit with rfl
    exact Or.inl (Finset.mem_singleton_self _))

/-! ## The inter-album delay (claim C5) -/

theorem backoffLoop_no_albumSleep (status : Nat → Nat) :
    ∀ fuel made delay d, Ev.albumSleep d ∉ (backoffLoop status fuel made delay).2 := by
  intro fuel
  induction fuel with
  | zero => intro made delay d; simp [backoffLoop]
  | succ fuel ih =>
    intro made delay d
    by_cases h1 : status made = 200
    · simp [backoffLoop, h1]
    · by_cases h2 : status made = 429
      · simp only [backoffLoop, if_neg h1, if_pos h2]
        simp [ih (made + 1) (delay * 2) d]
      · simp [backoffLoop, h1, h2]

theorem gwb_no_albumSleep (status : Nat → Nat) (d : Nat) :
    Ev.albumSleep d ∉ (get_with_backoff status).2 :=
  backoffLoop_no_albumSleep status MAX_RETRIES 0 1 d

/-- C5 (amended): for an identity that is not already resolved, the
`time.sleep(BASE_DELAY)` at the bottom of the loop runs exactly when the
search produced an image URL and the HTTP phase of the image fetch
succeeded: it runs on the success path and on the exception paths
(decode or save failure), but the two miss paths that reach `continue`
(search returned None, or fetch returned None) proceed to the next
identity with no inter-album sleep.  Identities skipped as already
resolved produce no events at all, hence no delay. -/
theorem c5_base_delay_only_after_fetch (env : AlbumEnv) (fs : Finset String)
    (a b : String)
    (hcov : cover_path a b ∉ fs) (hmiss : miss_path a b ∉ fs) :
    (((get_with_backoff env.searchStatus).1.isSome = true ∧
        env.imgSrc.isSome = true ∧
        (get_with_backoff env.fetchStatus).1.isSome = true) →
      (processAlbum env fs a b).2.getLast? = some (Ev.albumSleep BASE_DELAY)) ∧
    (((get_with_backoff env.searchStatus).1 = none ∨ env.imgSrc = none ∨
        (get_with_backoff env.fetchStatus).1 = none) →
      ∀ d, Ev.albumSleep d ∉ (processAlbum env fs a b).2) ∧
    (∀ fs2 : Finset String,
      (cover_path a b ∈ fs2 ∨ miss_path a b ∈ fs2) →
        (processAlbum env fs2 a b).2 = []) := by
  have hneg : ¬ (cover_path a b ∈ fs ∨ miss_path a b ∈ fs) :=
    not_or.mpr ⟨hcov, hmiss⟩
  refine ⟨?_, ?_, ?_⟩
  · rintro ⟨hs, hi, hf⟩
    obtain ⟨u, hS⟩ := Option.isSome_iff_exists.mp hs
    obtain ⟨w, hI⟩ := Option.isSome_iff_exists.mp hi
    obtain ⟨v, hF⟩ := Option.isSome_iff_exists.mp hf
    simp only [processAlbum, if_neg hneg, search_bandcamp_album,
      fetch_album_art, hS, hI, hF]
    by_cases hd : env.decodeOk
    · by_cases hsv : env.saveOk <;> simp [hd, hsv]
    · simp [hd]
  · intro hnone d
    rcases hnone with hS | hI | hF
    · simp [processAlbum, if_neg hneg, search_bandcamp_album, hS,
        gwb_no_albumSleep]
    · rcases hS : (get_with_backoff env.searchStatus).1 with _ | u
      · simp [processAlbum, if_neg hneg, search_bandcamp_album, hS,
          gwb_no_albumSleep]
      · simp [processAlbum, if_neg hneg, search_bandcamp_album, hS, hI,
          gwb_no_albumSleep]
    · rcases hS : (get_with_backoff env.searchStatus).1 with _ | u
      · simp [processAlbum, if_neg hneg, search_bandcamp_album, hS,
          gwb_no_albumSleep]
      · rcases hI : env.imgSrc with _ | w
        · simp [processAlbum, if_neg hneg, search_bandcamp_album, hS, hI,
            gwb_no_albumSleep]
        · simp [processAlbum, if_neg hneg, search_bandcamp_album,
            fetch_album_art, hS, hI, hF, gwb_no_albumSleep]
  · intro fs2 h2
    rw [processAlbum_skip env fs2 a b h2]

/-- C5 counterexample: an identity processed from the empty cache whose
search immediately fails (HTTP 404) ends as a miss through the
`continue` path, and NO `BASE_DELAY` sleep happens before the next
identity: the whole trace of the run is a single request. -/
theorem c5_counterexample :
    (cover_path "a" "b" ∉ (∅ : Finset String) ∧
      miss_path "a" "b" ∉ (∅ : Finset String)) ∧
    miss_path "a" "b" ∈ (download_covers [(("a", "b"), env404)] ∅).1 ∧
    (download_covers [(("a", "b"), env404)] ∅).2 = [Ev.req] ∧
    Ev.albumSleep BASE_DELAY ∉ (download_covers [(("a", "b"), env404)] ∅).2 := by
  decide

/-- Witness for C5 on the all-success oracle: the trace of an
unresolved identity ends with the BASE_DELAY sleep. -/
theorem c5_witness :
    (processAlbum envOK ∅ "a" "b").2.getLast? = some (Ev.albumSleep BASE_DELAY) :=
  (c5_base_delay_only_after_fetch envOK ∅ "a" "b" (by decide) (by decide)).1
    (by decide)

/-! ## The grid arithmetic of the mosaic (claims C6 and C8) -/

theorem ceilSqrtFrom_ge (n : Nat) :
    ∀ fuel g, g ≤ ceilSqrtFrom n g fuel := by
  intro fuel
  induction fuel with
  | zero => intro g; exact le_rfl
  | succ fuel ih =>
    intro g
    simp only [ceilSqrtFrom]
    split
    · exact le_rfl
    · exact le_trans (Nat.le_succ g) (ih (g + 1))

theorem ceilSqrtFrom_spec (n : Nat) :
    ∀ fuel g, n ≤ ceilSqrtFrom n g fuel * ceilSqrtFrom n g fuel ∨
      ceilSqrtFrom n g fuel = g + fuel := by
  intro fuel
  induction fuel with
  | zero => intro g; exact Or.inr rfl
  | succ fuel ih =>
    intro g
    simp only [ceilSqrtFrom]
    split
    · rename_i h
      exact Or.inl h
    · rcases ih (g + 1) with h2 | h2
      · exact Or.inl h2
      · exact Or.inr (h2.trans (by omega))

theorem ceilSqrtFrom_min (n : Nat) :
    ∀ fuel g k, g ≤ k → k < ceilSqrtFrom n g fuel → ¬ n ≤ k * k := by
  intro fuel
  induction fuel with
  | zero =>
    intro g k hgk hk
    simp only [ceilSqrtFrom] at hk
    omega
  | succ fuel ih =>
    intro g k hgk hk
    simp only [ceilSqrtFrom] at hk
    split at hk
    · omega
    · rename_i h
      rcases Nat.eq_or_lt_of_le hgk with rfl | hlt
      · exact h
      · exact ih (g + 1) k hlt hk

/-- The defining property of `ceilSqrt`: it is the ceiling of the square
root, characterised by its Galois connection with squaring. -/
theorem ceilSqrt_le_iff (n g : Nat) : ceilSqrt n ≤ g ↔ n ≤ g * g := by
  have hub : n ≤ ceilSqrt n * ceilSqrt n := by
    rcases ceilSqrtFrom_spec n n 0 with h | h
    · exact h
    · rw [ceilSqrt, h]
      rcases Nat.eq_zero_or_pos n with rfl | hp
      · simp
      · simpa using Nat.le_mul_of_pos_left n hp
  constructor
  · intro h
    exact hub.trans (Nat.mul_le_mul h h)
  · intro h
    by_contra hc
    push_neg at hc
    exact ceilSqrtFrom_min n n 0 g (Nat.zero_le g) hc h

/-- C6: on a non-empty image list, `build_mosaic` writes a
FINAL_SIZE x FINAL_SIZE black canvas; the grid dimension is the ceiling
of the square root of the count (characterised by its Galois connection,
with the claimed instances 10 -> 4, 9 -> 3, 1 -> 1), the tile size is
FINAL_SIZE // grid, and tile i is resized to exactly tile x tile and
pasted at ((i % grid) * tile, (i // grid) * tile). -/
theorem c6_build_mosaic_layout {α : Type} (images : List α)
    (h : images ≠ []) :
    ∃ out : MosaicOut α, (build_mosaic images).output = some out ∧
      out.canvas = (FINAL_SIZE, FINAL_SIZE) ∧
      out.background = "black" ∧
      out.placements.length = images.length ∧
      (∀ g : Nat, ceilSqrt images.length ≤ g ↔ images.length ≤ g * g) ∧
      (ceilSqrt 10 = 4 ∧ ceilSqrt 9 = 3 ∧ ceilSqrt 1 = 1) ∧
      (∀ i : Nat, out.placements[i]? = images[i]?.map (fun im =>
        { img := im,
          size := (FINAL_SIZE / ceilSqrt images.length,
                   FINAL_SIZE / ceilSqrt images.length),
          pos := ((i % ceilSqrt images.length) *
                    (FINAL_SIZE / ceilSqrt images.length),
                  (i / ceilSqrt images.length) *
                    (FINAL_SIZE / ceilSqrt images.length)) })) := by
  have hlen : ¬ images.length = 0 := fun hc => h (List.length_eq_zero.mp hc)
  simp only [build_mosaic, if_neg hlen]
  refine ⟨_, rfl, rfl, rfl, ?_, fun g => ceilSqrt_le_iff images.length g,
    by decide, ?_⟩
  · simp
  · intro i
    rw [List.getElem?_map, List.getElem?_enum]
    cases images[i]? <;> rfl

/-- Witness for C6 on a two-image list. -/
theorem c6_witness :
    ∃ out : MosaicOut Nat,
      (build_mosaic ([0, 1] : List Nat)).output = some out ∧
      out.canvas = (FINAL_SIZE, FINAL_SIZE) ∧
      out.background = "black" ∧
      out.placements.length = ([0, 1] : List Nat).length ∧
      (∀ g : Nat, ceilSqrt ([0, 1] : List Nat).length ≤ g ↔
        ([0, 1] : List Nat).length ≤ g * g) ∧
      (ceilSqrt 10 = 4 ∧ ceilSqrt 9 = 3 ∧ ceilSqrt 1 = 1) ∧
      (∀ i : Nat,
        out.placements[i]? = ([0, 1] : List Nat)[i]?.map (fun im =>
          { img := im,
            size := (FINAL_SIZE / ceilSqrt ([0, 1] : List Nat).length,
                     FINAL_SIZE / ceilSqrt ([0, 1] : List Nat).length),
            pos := ((i % ceilSqrt ([0, 1] : List Nat).length) *
                      (FINAL_SIZE / ceilSqrt ([0, 1] : List Nat).length),
                    (i / ceilSqrt ([0, 1] : List Nat).length) *
                      (FINAL_SIZE / ceilSqrt ([0, 1] : List Nat).length)) })) :=
  c6_build_mosaic_layout ([0, 1] : List Nat) (by decide)

/-- C8: `build_mosaic` on the empty list writes no output file, reports
that no images were found, and (being a total function) raises no
error: a degenerate success. -/
theorem c8_empty_mosaic (α : Type) :
    build_mosaic ([] : List α) =
      { output := none, messages := [Msg.noImages] } := rfl

/-! ## Loading order and robustness (claims C9 and C10) -/

theorem load_foldl_eq {α : Type} (l : List (DirFile α)) :
    ∀ acc : List α,
      l.foldl (fun images f =>
        if endswith f.name ".jpg" then
          match f.decode with
          | some img => images ++ [img]
          | none => images
        else images) acc =
      acc ++ (l.filter (fun f => endswith f.name ".jpg")).filterMap
        (fun f => f.decode) := by
  induction l with
  | nil => intro acc; simp
  | cons f rest ih =>
    intro acc
    by_cases hj : endswith f.name ".jpg"
    · rcases hd : f.decode with _ | img
      · simp [hj, hd, ih]
      · simp [hj, hd, ih]
    · simp [hj, ih]

theorem load_eq {α : Type} (dir : List (DirFile α)) :
    load_images_from_disk dir =
      ((sortByName dir).filter (fun f => endswith f.name ".jpg")).filterMap
        (fun f => f.decode) := by
  rw [load_images_from_disk, load_foldl_eq]
  simp

theorem load_perm_unsorted {α : Type} (dir : List (DirFile α)) :
    (load_images_from_disk dir).Perm
      ((dir.filter (fun f => endswith f.name ".jpg")).filterMap
        (fun f => f.decode)) := by
  rw [load_eq]
  exact ((List.perm_insertionSort nameLe dir).filter
    (fun f => endswith f.name ".jpg")).filterMap (fun f => f.decode)

/-- A name ending in ".jpg.miss" does not end in ".jpg" (the two
suffixes disagree on the last character). -/
theorem jpgmiss_not_jpg (s : String) (h : endswith s ".jpg.miss" = true) :
    endswith s ".jpg" = false := by
  cases hc : endswith s ".jpg" with
  | false => rfl
  | true =>
    exfalso
    simp only [endswith] at h hc
    have h1 : ".jpg.miss".data <:+ s.data := List.isSuffixOf_iff_suffix.mp h
    have h2 : ".jpg".data <:+ s.data := List.isSuffixOf_iff_suffix.mp hc
    rcases List.suffix_or_suffix_of_suffix h2 h1 with h3 | h3
    · exact absurd h3 (by decide)
    · exact absurd h3 (by decide)

theorem build_mosaic_keeps_order {α : Type} (images : List α)
    (out : MosaicOut α) (hout : (build_mosaic images).output = some out) :
    out.placements.map (fun pl => pl.img) = images := by
  by_cases hlen : images.length = 0
  · simp [build_mosaic, hlen] at hout
  · simp only [build_mosaic, if_neg hlen] at hout
    obtain rfl := (Option.some.inj hout).symm
    simp only [List.map_map]
    exact List.enum_map_snd images

/-- C9: the tile order of the mosaic is the lexicographic order of the
cache file names.  `load_images_from_disk` returns the decodable images
of the ".jpg" files in sorted name order, the sort order is ascending
lexicographic comparison of the names (`nameLe`, which coincides with
equality-or-`List.Lex` on the character lists), and `build_mosaic` keeps
the given order: tile i is image i. -/
theorem c9_lexicographic_tile_order {α : Type} (dir : List (DirFile α)) :
    load_images_from_disk dir =
      ((sortByName dir).filter (fun f => endswith f.name ".jpg")).filterMap
        (fun f => f.decode) ∧
    List.Sorted nameLe (sortByName dir) ∧
    (∀ f g : DirFile α, nameLe f g ↔
      (f.name.data = g.name.data ∨
        List.Lex (fun c d : Char => c < d) f.name.data g.name.data)) ∧
    (∀ out : MosaicOut α,
      (build_mosaic (load_images_from_disk dir)).output = some out →
        out.placements.map (fun pl => pl.img) = load_images_from_disk dir) := by
  refine ⟨load_eq dir, List.sorted_insertionSort nameLe dir, ?_, ?_⟩
  · intro f g
    rw [nameLe, le_iff_lt_or_eq]
    constructor
    · rintro (h | h)
      · exact Or.inr h
      · exact Or.inl h
    · rintro (h | h)
      · exact Or.inr h
      · exact Or.inl h
  · exact fun out hout => build_mosaic_keeps_order _ out hout

/-- Witness for C9: the two-file directory `c9Dir` yields the mosaic
`c9Out`, whose tiles are the images in lexicographic file-name order. -/
theorem c9_witness :
    c9Out.placements.map (fun pl => pl.img) = load_images_from_disk c9Dir :=
  (c9_lexicographic_tile_order c9Dir).2.2.2 c9Out (by decide)

theorem filterMap_decode_length {α : Type} (l : List (DirFile α)) :
    (l.filterMap (fun f => f.decode)).length =
    (l.filter (fun f => f.decode.isSome)).length := by
  induction l with
  | nil => rfl
  | cons f rest ih =>
    rcases hd : f.decode with _ | img <;>
      simp [List.filterMap_cons, List.filter_cons, hd, ih]

/-- C10: `load_images_from_disk` is a total function (it can not raise),
its images are exactly the successfully decoded ".jpg" files of the
directory in some order, its length counts exactly the decodable ".jpg"
files, and adding a corrupt file (decode failure) or a non-".jpg" file
such as a ".jpg.miss" miss marker leaves the loaded images unchanged up
to permutation: a corrupt cache file only reduces the tile count. -/
theorem c10_corrupt_files_skipped {α : Type} (dir : List (DirFile α)) :
    (load_images_from_disk dir).Perm
      ((dir.filter (fun f => endswith f.name ".jpg")).filterMap
        (fun f => f.decode)) ∧
    (load_images_from_disk dir).length =
      (dir.filter (fun f => endswith f.name ".jpg" && f.decode.isSome)).length ∧
    (∀ f : DirFile α, f.decode = none →
      (load_images_from_disk (f :: dir)).Perm (load_images_from_disk dir)) ∧
    (∀ f : DirFile α, endswith f.name ".jpg.miss" = true →
      (load_images_from_disk (f :: dir)).Perm (load_images_from_disk dir)) := by
  refine ⟨load_perm_unsorted dir, ?_, ?_, ?_⟩
  · rw [(load_perm_unsorted dir).length_eq, filterMap_decode_length,
      List.filter_filter]
    exact congrArg List.length (List.filter_congr (fun x _ => Bool.and_comm _ _))
  · intro f hd
    refine ((load_perm_unsorted (f :: dir)).trans ?_).trans
      (load_perm_unsorted dir).symm
    by_cases hj : endswith f.name ".jpg"
    · simp [List.filter_cons, hj, List.filterMap_cons, hd]
    · simp [List.filter_cons, hj]
  · intro f hm
    have hj := jpgmiss_not_jpg f.name hm
    refine ((load_perm_unsorted (f :: dir)).trans ?_).trans
      (load_perm_unsorted dir).symm
    simp [List.filter_cons, hj]

/-- Witness for C10: prepending a miss marker to `c10Dir` leaves the
loaded images unchanged. -/
theorem c10_witness :
    (load_images_from_disk (⟨"z.jpg.miss", some 5⟩ :: c10Dir)).Perm
      (load_images_from_disk c10Dir) :=
  (c10_corrupt_files_skipped c10Dir).2.2.2 ⟨"z.jpg.miss", some 5⟩ (by decide)

end AlbumMosaic
